import Mathlib

/-
Formal model of the sahelib25/axs_clone repository.

Two independent pipelines are embedded:

1. The batch-inference runner scripts
   (core_collection/pytorch_image_classifier/barebones_resnet50.py, namespace PIC,
    core_collection/torch_script_test/barebones_resnet50.py, namespace TST):
   device selection, model-load retry loop, batch partitioning, and the
   timing/output-record construction.  Wall-clock durations and the neural
   network itself are external effects and appear as parameters; divisions
   that can raise ZeroDivisionError are modelled in an Except monad.

2. The dependency-graph renderer
   (core_collection/varia_collection/graph/code_axs.py, namespace Graph):
   Python values are modelled by the inductive PyVal together with Python's
   str()/repr() rendering, truthiness, iteration and containment; entries of
   the external axs kernel are modelled by the mutual inductive Entry/PList,
   where the accessors own_data(), get("output_entry_parents"),
   get("_parent_entries") and the parsed data_axs.json file appear as fields.
   The iterative dfs with its shared initial_root_visited flag, the draw
   driver, and the pattern-extraction helpers find_key / find_parent /
   find_byname / process_json / extract_byname_entries are translated
   statement by statement; Python exceptions (TypeError, IndexError,
   KeyError, ZeroDivisionError) are Except.error values.
-/

/-! ## Python value model -/

inductive PyVal where
  | pynone
  | pybool (b : Bool)
  | pyint (n : Int)
  | pystr (s : String)
  | pylist (xs : List PyVal)
  | pydict (kvs : List (String × PyVal))
deriving Repr

mutual

/- Python repr() of a value (dicts/lists render their elements with repr;
   strings are quoted; escaping inside strings is not modelled). -/
def pyRepr : PyVal → String
  | .pynone => "None"
  | .pybool b => if b then "True" else "False"
  | .pyint n => toString n
  | .pystr s => "\x27" ++ s ++ "\x27"
  | .pylist xs => "[" ++ pyReprList xs ++ "]"
  | .pydict kvs => "\x7b" ++ pyReprDict kvs ++ "\x7d"

def pyReprList : List PyVal → String
  | [] => ""
  | [x] => pyRepr x
  | x :: y :: rest => pyRepr x ++ ", " ++ pyReprList (y :: rest)

def pyReprDict : List (String × PyVal) → String
  | [] => ""
  | [kv] => "\x27" ++ kv.1 ++ "\x27: " ++ pyRepr kv.2
  | kv :: kv2 :: rest =>
    "\x27" ++ kv.1 ++ "\x27: " ++ pyRepr kv.2 ++ ", " ++ pyReprDict (kv2 :: rest)

end

/- Python str() of a value: identity on strings, repr() otherwise. -/
def pyStr : PyVal → String
  | .pystr s => s
  | v => pyRepr v

/- Python truthiness. -/
def pyTruthy : PyVal → Bool
  | .pynone => false
  | .pybool b => b
  | .pyint n => n != 0
  | .pystr s => s != ""
  | .pylist xs => !xs.isEmpty
  | .pydict kvs => !kvs.isEmpty

/- Python `needle in hay` for strings: contiguous-substring test. -/
def charsContain (needle : List Char) : List Char → Bool
  | [] => needle.isEmpty
  | c :: rest => needle.isPrefixOf (c :: rest) || charsContain needle rest

def strContains (hay needle : String) : Bool :=
  charsContain needle.toList hay.toList

/- Python `x == "lit"` where x is an arbitrary value: only equal strings match. -/
def isPyStrEq (x : PyVal) (s : String) : Bool :=
  match x with
  | .pystr t => t == s
  | _ => false

/-! ## Batch inference runner: pytorch_image_classifier/barebones_resnet50.py -/

namespace PIC

/- Source line 54: file_pattern = 'ILSVRC2012_val_000{:05d}.JPEG'. -/
def pad5 (n : Nat) : String :=
  let s := toString n
  String.mk (List.replicate (5 - s.length) '0') ++ s

/- Source line 76: file_name = file_pattern.format(i+1), for image index i. -/
def fileName (i : Nat) : String :=
  "ILSVRC2012_val_000" ++ pad5 (i + 1) ++ ".JPEG"

/- Source lines 55-56. -/
def maxAttempts : Nat := 3
def retryInSeconds : Nat := 20

/- Source line 57: batch_count = math.ceil(num_of_images / max_batch_size). -/
def batchCount (n b : Nat) : Nat := (n + b - 1) / b

/- Source lines 65-68: device selection.  "gpu" probes cuda availability;
   the empty hint autodetects via `execution_device or (...)`; any other
   hint is truthy and is kept verbatim. -/
def selectDevice (hint : String) (cudaAvailable : Bool) : String :=
  if hint = "gpu" then (if cudaAvailable then "cuda" else "cpu")
  else if hint = "" then (if cudaAvailable then "cuda" else "cpu")
  else hint

/- Source lines 87-98: the model-load retry loop
   `for retry in range(max_attempts): ...`.
   `outcome r = true` means the r-th call of torch.hub.load succeeds,
   false means it raises HTTPError (the only caught exception).
   The first component records the sleep durations performed, the second
   the number of load attempts executed, the third the index of the
   successful attempt (none if all attempts failed and the loop fell
   through with `model` unset). -/
def retryGo (outcome : Nat → Bool) : Nat → Nat → List Nat → Nat → List Nat × Nat × Option Nat
  | 0, _, sleeps, attempts => (sleeps, attempts, Option.none)
  | remaining + 1, retry, sleeps, attempts =>
    let sleeps2 := if 0 < retry then sleeps ++ [retryInSeconds] else sleeps
    if outcome retry then (sleeps2, attempts + 1, some retry)
    else retryGo outcome remaining (retry + 1) sleeps2 (attempts + 1)

def retryLoad (outcome : Nat → Bool) : List Nat × Nat × Option Nat :=
  retryGo outcome maxAttempts 0 [] 0

/- Python range(start, stop, step) for step > 0. -/
def pyRangeStep (start stop step : Nat) : List Nat :=
  (List.range ((stop - start + step - 1) / step)).map (fun j => start + j * step)

/- Source line 122: batch_open_end = min(batch_start+max_batch_size, num_of_images);
   line 125: the index range of one batch. -/
def batchIndices (n b s : Nat) : List Nat := List.range' s (min (s + b) n - s)

/- Artifacts accumulated by the batch loop (source lines 112-160).
   Wall-clock durations of the loading and inference phases of the batch
   starting at s are external inputs loadT s / infT s; the model's argmax
   class for image i is classify i. -/
structure BatchRun where
  listBatchLoading : List ℚ
  listBatchInference : List ℚ
  predictions : List (String × Nat)
  sumLoading : ℚ
  sumInference : ℚ
deriving Repr, DecidableEq

def runBatches (n b : Nat) (loadT infT : Nat → ℚ) (classify : Nat → Nat) : BatchRun :=
  let starts := pyRangeStep 0 n b
  { listBatchLoading := starts.map loadT
    listBatchInference := starts.map infT
    predictions :=
      (starts.map (fun s => (batchIndices n b s).map (fun i => (fileName i, classify i)))).flatten
    sumLoading := (starts.map loadT).sum
    sumInference := (starts.map infT).sum }

/- Python division: raises ZeroDivisionError exactly on a zero denominator. -/
def pydiv (a b : ℚ) : Except String ℚ :=
  if b = 0 then .error "ZeroDivisionError" else .ok (a / b)

/- The "times" block of the output record, source lines 169-179. -/
structure Times where
  modelLoading : ℚ
  sumLoading : ℚ
  sumInference : ℚ
  perInference : ℚ
  fps : ℚ
  listBatchLoading : List ℚ
  listBatchInference : List ℚ
deriving Repr, DecidableEq

/- Lines 174-175: per_inference_s is computed before fps, both unguarded. -/
def mkTimes (n : Nat) (modelLoading : ℚ) (run : BatchRun) : Except String Times :=
  match pydiv run.sumInference (n : ℚ) with
  | .error e => .error e
  | .ok per =>
    match pydiv (n : ℚ) run.sumInference with
    | .error e => .error e
    | .ok fps =>
      .ok ⟨modelLoading, run.sumLoading, run.sumInference, per, fps,
           run.listBatchLoading, run.listBatchInference⟩

/- Source lines 163-186: `if output_file_path:` guards the whole block;
   a raised ZeroDivisionError aborts before the file is opened, so
   .ok (some t) is the only case in which the output file is written. -/
def writeOutput (path : String) (n : Nat) (modelLoading : ℚ) (run : BatchRun) :
    Except String (Option Times) :=
  if path = "" then .ok Option.none
  else
    match mkTimes n modelLoading run with
    | .error e => .error e
    | .ok t => .ok (some t)

/- The whole run, as far as the retry loop and the output record are
   concerned.  When all load attempts fail the loop falls through with
   `model` unbound and line 100 (`model.eval()`) raises NameError. -/
def runScript (outcome : Nat → Bool) (path : String) (n b : Nat) (modelLoading : ℚ)
    (loadT infT : Nat → ℚ) (classify : Nat → Nat) : Except String (Option Times) :=
  match (retryLoad outcome).2.2 with
  | Option.none => .error "NameError"
  | some _ => writeOutput path n modelLoading (runBatches n b loadT infT classify)

end PIC

/-! ## Batch inference runner: torch_script_test/barebones_resnet50.py -/

namespace TST

/- Source line 29: `execution_device or ('cuda' if ... else 'cpu')`.
   There is no special branch for the "gpu" hint in this script. -/
def selectDevice (hint : String) (cudaAvailable : Bool) : String :=
  if hint = "" then (if cudaAvailable then "cuda" else "cpu") else hint

/- The "time" block of the second script, source lines 75-81. -/
structure TimeRec where
  modelLoading : ℚ
  dataLoading : ℚ
  allInference : ℚ
  perInference : ℚ
  fps : ℚ
deriving Repr, DecidableEq

/- Lines 79-80: per_inference_s = all_inference_s / n, fps = n / all_inference_s. -/
def mkTime (n : Nat) (modelLoading dataLoading allInference : ℚ) : Except String TimeRec :=
  match PIC.pydiv allInference (n : ℚ) with
  | .error e => .error e
  | .ok per =>
    match PIC.pydiv (n : ℚ) allInference with
    | .error e => .error e
    | .ok fps => .ok ⟨modelLoading, dataLoading, allInference, per, fps⟩

/- Source lines 72-87. -/
def writeOutput (path : String) (n : Nat) (modelLoading dataLoading allInference : ℚ) :
    Except String (Option TimeRec) :=
  if path = "" then .ok Option.none
  else
    match mkTime n modelLoading dataLoading allInference with
    | .error e => .error e
    | .ok t => .ok (some t)

end TST

/-! ## Dependency-graph renderer: varia_collection/graph/code_axs.py -/

namespace Graph

/- An entry of the external axs kernel, as seen by the graph renderer.
   name models get_name(); parents models get("_parent_entries"), whose
   elements are either name strings (resolved through the kernel's byname)
   or already-resolved entry objects; ownData models own_data(); oep models
   get("output_entry_parents"); fileData models the parsed
   <path>/data_axs.json used by process_json. -/
mutual

inductive Entry where
  | mk (name : String) (parents : PList) (ownData : List (String × PyVal))
       (oep : PyVal) (fileData : PyVal)

inductive PList where
  | nil
  | consName (s : String) (rest : PList)
  | consEntry (e : Entry) (rest : PList)

end

def Entry.name : Entry → String
  | .mk n _ _ _ _ => n

def Entry.parents : Entry → PList
  | .mk _ p _ _ _ => p

def Entry.ownData : Entry → List (String × PyVal)
  | .mk _ _ d _ _ => d

def Entry.oep : Entry → PyVal
  | .mk _ _ _ o _ => o

def Entry.fileData : Entry → PyVal
  | .mk _ _ _ _ f => f

def PList.toRefs : PList → List (String ⊕ Entry)
  | .nil => []
  | .consName s rest => Sum.inl s :: rest.toRefs
  | .consEntry e rest => Sum.inr e :: rest.toRefs

mutual

def Entry.nestedNames : Entry → Finset String
  | .mk n ps _ _ _ => insert n ps.nestedNames

def PList.nestedNames : PList → Finset String
  | .nil => ∅
  | .consName _ rest => rest.nestedNames
  | .consEntry e rest => e.nestedNames ∪ rest.nestedNames

end

/- The external kernel's byname resolver: first entry with the given name. -/
def byname (k : List Entry) (s : String) : Option Entry :=
  k.find? (fun e => e.name == s)

/- dfs lines 124-127: a string parent is looked up via byname, any other
   parent object is used as is (entry objects are truthy, so the
   `if not p: continue` test at line 128-129 only drops failed lookups). -/
def resolveParent (k : List Entry) : String ⊕ Entry → Option Entry
  | .inl s => byname k s
  | .inr e => some e

/- The resolved parents of one node, in source order; unresolvable
   references contribute nothing (lines 123-131). -/
def resolveRefs (k : List Entry) (refs : List (String ⊕ Entry)) : List Entry :=
  refs.filterMap (resolveParent k)

/- Graph events recorded on a graphviz object: f.node(name, color=...) and
   f.edge(src, dst). -/
inductive GEvent where
  | node (name color : String)
  | edge (src dst : String)
deriving Repr, DecidableEq

def nodeColors (evs : List GEvent) : List String :=
  evs.filterMap (fun ev => match ev with | .node _ c => some c | _ => Option.none)

def nodeNames (evs : List GEvent) : List String :=
  evs.filterMap (fun ev => match ev with | .node nm _ => some nm | _ => Option.none)

/- Names occurring anywhere in the kernel or in a stack. -/
def kernelNames (k : List Entry) : Finset String :=
  k.foldr (fun e acc => e.nestedNames ∪ acc) ∅

def stackNames (st : List (Entry × Bool)) : Finset String :=
  st.foldr (fun p acc => p.1.nestedNames ∪ acc) ∅

theorem stackNames_append (a b : List (Entry × Bool)) :
    stackNames (a ++ b) = stackNames a ∪ stackNames b := by
  induction a with
  | nil => simp [stackNames]
  | cons p rest ih =>
    simp only [stackNames, List.foldr_cons, List.cons_append] at ih ⊢
    rw [ih, Finset.union_assoc]

theorem name_mem_nestedNames (e : Entry) : e.name ∈ e.nestedNames := by
  cases e with
  | mk n ps d o f => simp [Entry.name, Entry.nestedNames]

theorem nestedNames_subset_kernelNames {k : List Entry} {e : Entry} (he : e ∈ k) :
    e.nestedNames ⊆ kernelNames k := by
  induction k with
  | nil => cases he
  | cons x rest ih =>
    simp only [kernelNames, List.foldr_cons] at ih ⊢
    rcases List.mem_cons.mp he with h | h
    · subst h; exact Finset.subset_union_left
    · exact (ih h).trans Finset.subset_union_right

theorem byname_mem {k : List Entry} {s : String} {e : Entry} (h : byname k s = some e) :
    e ∈ k :=
  List.mem_of_find?_eq_some h

theorem toRefs_inr_nestedNames :
    ∀ {ps : PList} {e : Entry}, Sum.inr e ∈ ps.toRefs → e.nestedNames ⊆ ps.nestedNames
  | .nil, _, h => by cases h
  | .consName s rest, e, h => by
    simp only [PList.toRefs, List.mem_cons] at h
    rcases h with h | h
    · cases h
    · simpa [PList.nestedNames] using toRefs_inr_nestedNames h
  | .consEntry x rest, e, h => by
    simp only [PList.toRefs, List.mem_cons] at h
    rcases h with h | h
    · have hx : e = x := by injection h
      subst hx
      simp only [PList.nestedNames]
      exact Finset.subset_union_left
    · exact (toRefs_inr_nestedNames h).trans
        (by simp only [PList.nestedNames]; exact Finset.subset_union_right)

theorem parents_nestedNames_subset (cur : Entry) :
    cur.parents.nestedNames ⊆ cur.nestedNames := by
  cases cur with
  | mk n ps d o f =>
    simp only [Entry.parents, Entry.nestedNames]
    exact Finset.subset_insert _ _

theorem resolveRefs_nestedNames {k : List Entry} {cur : Entry} {p : Entry}
    (hp : p ∈ resolveRefs k cur.parents.toRefs) :
    p.nestedNames ⊆ kernelNames k ∪ cur.nestedNames := by
  simp only [resolveRefs, List.mem_filterMap] at hp
  obtain ⟨ref, href, hres⟩ := hp
  cases ref with
  | inl s =>
    have hm : p ∈ k := byname_mem hres
    exact (nestedNames_subset_kernelNames hm).trans Finset.subset_union_left
  | inr e =>
    have hpe : e = p := by simpa [resolveParent] using hres
    subst hpe
    have hsub : e.nestedNames ⊆ cur.parents.nestedNames := toRefs_inr_nestedNames href
    exact (hsub.trans (parents_nestedNames_subset cur)).trans Finset.subset_union_right

theorem stackNames_subset {l : List (Entry × Bool)} {S : Finset String}
    (h : ∀ p ∈ l, p.1.nestedNames ⊆ S) : stackNames l ⊆ S := by
  induction l with
  | nil => simp [stackNames]
  | cons p rest ih =>
    simp only [stackNames, List.foldr_cons] at *
    exact Finset.union_subset (h p (by simp)) (ih (fun q hq => h q (by simp [hq])))

/- Source lines 87-133: the iterative dfs loop.  The Python list used as a
   stack appends and pops at its end; here the head of the list is the top
   of the stack, so the parents resolved in source order are pushed as
   resolved.reverse.  visited is the per-call set of already-emitted names
   (line 94), flag is the process-global initial_root_visited flag: the
   first node emitted while it is false is colored red and the flag is set
   (lines 110-112); afterwards nodes are colored lightblue when is_output
   and lightcoral otherwise (lines 113-116).  f.node is emitted before the
   parent loop (line 118); each resolved parent is pushed and immediately
   yields an edge parent-name -> current-name (lines 130-131), even if the
   parent was already visited. -/
def dfsLoop (k : List Entry) (isOut : Bool) :
    List (Entry × Bool) → List String → Bool → List GEvent × Bool
  | [], _, flag => ([], flag)
  | (cur, _isInit) :: rest, visited, flag =>
    if h : cur.name ∈ visited then
      dfsLoop k isOut rest visited flag
    else
      let resolved := resolveRefs k cur.parents.toRefs
      let color := if flag = false then "red" else if isOut = true then "lightblue" else "lightcoral"
      let tail := dfsLoop k isOut (resolved.reverse.map (fun p => (p, false)) ++ rest)
                    (cur.name :: visited) true
      (GEvent.node cur.name color ::
        (resolved.map (fun p => GEvent.edge p.name cur.name) ++ tail.1), tail.2)
termination_by stack visited _ =>
  (((kernelNames k ∪ stackNames stack) \ visited.toFinset).card, stack.length)
decreasing_by
· have hsub : (kernelNames k ∪ stackNames rest) \ visited.toFinset
      ⊆ (kernelNames k ∪ stackNames ((cur, _isInit) :: rest)) \ visited.toFinset := by
    refine Finset.sdiff_subset_sdiff ?_ (Finset.Subset.refl _)
    refine Finset.union_subset_union (Finset.Subset.refl _) ?_
    simp only [stackNames, List.foldr_cons]
    exact Finset.subset_union_right
  rcases lt_or_eq_of_le (Finset.card_le_card hsub) with hlt | heq
  · exact Prod.Lex.left _ _ hlt
  · rw [heq]
    refine Prod.Lex.right _ ?_
    simp only [List.length_cons]
    exact Nat.lt_succ_self _
· apply Prod.Lex.left
  apply Finset.card_lt_card
  have hU : kernelNames k ∪ stackNames (resolved.reverse.map (fun p => (p, false)) ++ rest)
      ⊆ kernelNames k ∪ stackNames ((cur, _isInit) :: rest) := by
    refine Finset.union_subset Finset.subset_union_left ?_
    rw [stackNames_append]
    refine Finset.union_subset ?_ ?_
    · apply stackNames_subset
      intro p hp
      simp only [List.mem_map, List.mem_reverse] at hp
      obtain ⟨q, hq, rfl⟩ := hp
      refine (resolveRefs_nestedNames hq).trans ?_
      refine Finset.union_subset Finset.subset_union_left ?_
      refine Finset.Subset.trans ?_ Finset.subset_union_right
      simp only [stackNames, List.foldr_cons]
      exact Finset.subset_union_left
    · refine Finset.Subset.trans ?_ Finset.subset_union_right
      simp only [stackNames, List.foldr_cons]
      exact Finset.subset_union_right
  have hsub : (kernelNames k ∪ stackNames (resolved.reverse.map (fun p => (p, false)) ++ rest))
        \ (cur.name :: visited).toFinset
      ⊆ (kernelNames k ∪ stackNames ((cur, _isInit) :: rest)) \ visited.toFinset := by
    intro x hx
    simp only [Finset.mem_sdiff, List.toFinset_cons, Finset.mem_insert] at hx ⊢
    exact ⟨hU hx.1, fun hv => hx.2 (Or.inr hv)⟩
  rw [Finset.ssubset_iff_of_subset hsub]
  refine ⟨cur.name, ?_, ?_⟩
  · simp only [Finset.mem_sdiff]
    constructor
    · apply Finset.mem_union_right
      simp only [stackNames, List.foldr_cons]
      exact Finset.mem_union_left _ (name_mem_nestedNames cur)
    · simpa using h
  · simp [Finset.mem_sdiff, List.toFinset_cons]

/- dfs lines 96-101: the root is resolved via byname; anything that is not
   a string name matches no kernel entry.  An unresolvable root prints
   "ERROR!" and returns without emitting anything (lines 97-99). -/
def rootResolve (k : List Entry) : PyVal → Option Entry
  | .pystr s => byname k s
  | _ => Option.none

def dfs (k : List Entry) (root : PyVal) (isOut : Bool) (flag : Bool) : List GEvent × Bool :=
  match rootResolve k root with
  | Option.none => ([], flag)
  | some e => dfsLoop k isOut [(e, true)] [] flag

/-! ### Pattern-extraction helpers (source lines 135-179) -/

/- Python's \s character class (space, tab, newline, return, \x0b, \x0c). -/
def isSpaceChar (c : Char) : Bool :=
  c.isWhitespace || c = '\x0b' || c = '\x0c'

def quoteChar (c : Char) : Bool :=
  c = '\x27' || c = '"'

/- Line 156: re.search of the anchored pattern
   "^\[(?:'|\")_parent_entries(.*)" against str(obj): the rendering must
   start with a bracket, a quote and the literal _parent_entries. -/
def parentPatMatch (s : String) : Bool :=
  match s.toList with
  | '[' :: q :: rest => quoteChar q && "_parent_entries".toList.isPrefixOf rest
  | _ => false

/- Line 158: re.search of
   "^\[('|\")\^('|\")(\s*),(\s*)('|\")byname(.*)" against str(obj). -/
def bynameSuffix : List Char → Bool
  | q :: rest => quoteChar q && "byname".toList.isPrefixOf rest
  | [] => false

def bynamePatMatch (s : String) : Bool :=
  match s.toList with
  | '[' :: q1 :: '^' :: q2 :: rest =>
    quoteChar q1 && quoteChar q2 &&
      (match rest.dropWhile isSpaceChar with
       | ',' :: rest2 => bynameSuffix (rest2.dropWhile isSpaceChar)
       | _ => false)
  | _ => false

/- Iterating a Python value (`for x in obj`, list(obj)): lists yield their
   elements, strings their characters, dicts their keys; anything else
   raises TypeError. -/
def charStrs (s : String) : List PyVal :=
  s.toList.map (fun c => PyVal.pystr (String.mk [c]))

def pyToIter (v : PyVal) : Except String (List PyVal) :=
  match v with
  | .pylist xs => .ok xs
  | .pystr s => .ok (charStrs s)
  | .pydict kvs => .ok (kvs.map (fun kv => PyVal.pystr kv.1))
  | _ => .error "TypeError"

/- matches.extend(r): extending a Python list by an arbitrary value;
   raises TypeError when the value is not iterable (None, int, bool, ...). -/
def pyExtend (ms : List PyVal) (r : PyVal) : Except String (List PyVal) :=
  match r with
  | .pylist xs => .ok (ms ++ xs)
  | .pystr s => .ok (ms ++ charStrs s)
  | .pydict kvs => .ok (ms ++ kvs.map (fun kv => PyVal.pystr kv.1))
  | _ => .error "TypeError"

mutual

/- Source lines 145-163: find_key(obj, key).  The dict branch iterates
   key/value pairs: a pair whose key matches returns its value; otherwise
   the recursive result is extend-ed into matches (TypeError if it is not
   iterable) and, being non-None, immediately returned; the list branch
   first appends obj itself when one of the two anchored regexes matches
   str(obj), then extends matches with the recursive result of every item;
   any other value falls through to `return matches` with matches = []. -/
def findKey : PyVal → String → Except String PyVal
  | .pydict kvs, key => findKeyDict kvs key []
  | .pylist xs, key =>
    let m0 : List PyVal :=
      if key = "_parent_entries" && parentPatMatch (pyStr (.pylist xs)) then [.pylist xs] else []
    let m1 : List PyVal :=
      m0 ++ (if key = "byname" && bynamePatMatch (pyStr (.pylist xs)) then [.pylist xs] else [])
    match findKeyList xs key m1 with
    | .error e => .error e
    | .ok m => .ok (.pylist m)
  | _, _ => .ok (.pylist [])

def findKeyDict : List (String × PyVal) → String → List PyVal → Except String PyVal
  | [], _, ms => .ok (.pylist ms)
  | (k, v) :: rest, key, ms =>
    if k = key then .ok v
    else
      match findKey v key with
      | .error e => .error e
      | .ok r =>
        match pyExtend ms r with
        | .error e => .error e
        | .ok ms2 =>
          match r with
          | .pynone => findKeyDict rest key ms2
          | _ => .ok r

def findKeyList : List PyVal → String → List PyVal → Except String (List PyVal)
  | [], _, ms => .ok ms
  | x :: rest, key, ms =>
    match findKey x key with
    | .error e => .error e
    | .ok r =>
      match pyExtend ms r with
      | .error e => .error e
      | .ok ms2 => findKeyList rest key ms2

end

/- Source lines 135-137. -/
def find_parent (obj : PyVal) : Except String PyVal :=
  findKey obj "_parent_entries"

/- Python `key in obj` / obj[key] for a string key. -/
def pyContains (obj : PyVal) (key : String) : Except String Bool :=
  match obj with
  | .pydict kvs => .ok (kvs.any (fun kv => kv.1 == key))
  | .pylist xs => .ok (xs.any (fun x => isPyStrEq x key))
  | .pystr s => .ok (strContains s key)
  | _ => .error "TypeError"

def pyGetItem (obj : PyVal) (key : String) : Except String PyVal :=
  match obj with
  | .pydict kvs =>
    match kvs.find? (fun kv => kv.1 == key) with
    | some kv => .ok kv.2
    | Option.none => .error "KeyError"
  | _ => .error "TypeError"

/- Source lines 165-170: process_json.  The opened data_axs.json appears
   here already parsed, as the entry's fileData.  The dict comprehension
   keeps the keys output_file_path and output_entry, in that order, when
   present; the result is fed to find_parent. -/
def buildRequired (obj : PyVal) : List String → List (String × PyVal) →
    Except String (List (String × PyVal))
  | [], acc => .ok acc
  | key :: ks, acc =>
    match pyContains obj key with
    | .error e => .error e
    | .ok b =>
      if b then
        match pyGetItem obj key with
        | .error e => .error e
        | .ok v => buildRequired obj ks (acc ++ [(key, v)])
      else buildRequired obj ks acc

def process_json (fileData : PyVal) : Except String PyVal :=
  match buildRequired fileData ["output_file_path", "output_entry"] [] with
  | .error e => .error e
  | .ok kvs => find_parent (.pydict kvs)

/- Line 143: list(item)[2] — IndexError when the matched list is shorter. -/
def pyIndex2 (item : PyVal) : Except String PyVal :=
  match pyToIter item with
  | .error e => .error e
  | .ok l =>
    match l.get? 2 with
    | some x => .ok x
    | Option.none => .error "IndexError"

/- Source lines 139-143: find_byname(file_path, obj=info).  The obj
   argument is immediately overwritten by process_json(file_path), so only
   the entry's fileData matters. -/
def find_byname (fileData : PyVal) : Except String (List PyVal) :=
  match process_json fileData with
  | .error e => .error e
  | .ok obj =>
    match findKey obj "byname" with
    | .error e => .error e
    | .ok items =>
      match pyToIter items with
      | .error e => .error e
      | .ok l => l.mapM pyIndex2

/- Source lines 172-179: extract_byname_entries.  For each list item
   containing the string 'byname', the element right after its first
   occurrence is collected (skipped when 'byname' is the last element). -/
def extractOne (acc : List PyVal) (item : PyVal) : List PyVal :=
  match item with
  | .pylist xs =>
    if xs.any (fun x => isPyStrEq x "byname") then
      match xs.get? (xs.findIdx (fun x => isPyStrEq x "byname") + 1) with
      | some y => acc ++ [y]
      | Option.none => acc
    else acc
  | _ => acc

def extract_byname_entries (oep : PyVal) : Except String (List PyVal) :=
  match pyToIter oep with
  | .error e => .error e
  | .ok items => .ok (items.foldl extractOne [])

/- A metadata value containing no dictionary anywhere: on such values the
   find_key branches that can raise (the dict branch's extend of a returned
   match value) are never reached. -/
mutual

def dictFree : PyVal → Bool
  | .pydict _ => false
  | .pylist xs => dictFreeList xs
  | _ => true

def dictFreeList : List PyVal → Bool
  | [] => true
  | x :: rest => dictFree x && dictFreeList rest

end

/-! ### The draw driver (source lines 8-85) -/

/- Source lines 35-42: the scan of target_data.items().  output starts
   False, output_parents_data starts "" (falsy, modelled as none).  A value
   whose str() contains "_parent_entries" sets output and captures the
   value; otherwise a value whose str() contains "tags" sets output;
   otherwise, when output_entries is truthy, output is set.  Note the third
   branch only runs for items reaching it: an empty target_data never sets
   output. -/
def scanStep (oepTruthy : Bool) (acc : Bool × Option PyVal) (kv : String × PyVal) :
    Bool × Option PyVal :=
  if strContains (pyStr kv.2) "_parent_entries" then (true, some kv.2)
  else if strContains (pyStr kv.2) "tags" then (true, acc.2)
  else if oepTruthy then (true, acc.2)
  else acc

def scanData (items : List (String × PyVal)) (oepTruthy : Bool) : Bool × Option PyVal :=
  items.foldl (scanStep oepTruthy) (false, Option.none)

/- The rendered artefacts of one draw call: the node/edge events of
   cluster_0 (the target's ancestry), whether the synthetic "output" node
   and the target->output edge were added (lines 54-56), and for cluster_1
   the per-root dfs events (each root also gets an edge to "output",
   lines 62-78), plus the final state of the global flag. -/
structure DrawRes where
  cluster0 : List GEvent
  outputNode : Bool
  cluster1 : List (PyVal × List GEvent)
  flagOut : Bool

/- Lines 62-68 / 73-78: successive is_output dfs calls, threading the
   global initial_root_visited flag. -/
def drawCluster1 (k : List Entry) : List PyVal → Bool → List (PyVal × List GEvent) × Bool
  | [], flag => ([], flag)
  | r :: rest, flag =>
    let d := dfs k r true flag
    let tail := drawCluster1 k rest d.2
    ((r, d.1) :: tail.1, tail.2)

/- Lines 72-78: the elif branch (output_entries and byname_entries). -/
def drawElse (k : List Entry) (bynameEntries : List PyVal) (oepT outFlag : Bool)
    (c0 : List GEvent × Bool) : Except String (Option DrawRes) :=
  if oepT && !bynameEntries.isEmpty then
    let c1 := drawCluster1 k bynameEntries c0.2
    .ok (some ⟨c0.1, outFlag, c1.1, c1.2⟩)
  else .ok (some ⟨c0.1, outFlag, [], c0.2⟩)

/- Source lines 8-85: draw(target).  initial_root_visited is reset to False
   at entry (line 18); an unresolvable target prints an error and returns
   nothing (.ok none); byname_entries is computed first when
   output_entry_parents is truthy (lines 30-33, may raise); then the data
   scan, the cluster_0 dfs with is_output False, the optional "output"
   node, and one of the two output-ancestry branches: the
   output_parents_data branch runs find_parent (result unused, may raise)
   and find_byname on the entry's data_axs.json (lines 58-70), the elif
   branch uses byname_entries (lines 72-78).  Uncaught Python exceptions
   are .error. -/
def draw (k : List Entry) (target : String) : Except String (Option DrawRes) :=
  match byname k target with
  | Option.none => .ok Option.none
  | some e =>
    match (if pyTruthy e.oep then extract_byname_entries e.oep else .ok []) with
    | .error err => .error err
    | .ok bynameEntries =>
      let scan := scanData e.ownData (pyTruthy e.oep)
      let c0 := dfs k (.pystr target) false false
      match scan.2 with
      | some opd =>
        if pyTruthy opd then
          match find_parent opd with
          | .error err => .error err
          | .ok _info =>
            match find_byname e.fileData with
            | .error err => .error err
            | .ok outputParents =>
              let c1 := drawCluster1 k outputParents c0.2
              .ok (some ⟨c0.1, scan.1, c1.1, c1.2⟩)
        else drawElse k bynameEntries (pyTruthy e.oep) scan.1 c0
      | Option.none => drawElse k bynameEntries (pyTruthy e.oep) scan.1 c0

end Graph

namespace Graph

/-! ### Concrete kernels used in the verification statements below -/

/- A single entry with no parents and no output signals. -/
def entT : Entry := Entry.mk "t" PList.nil [] PyVal.pynone (PyVal.pydict [])
def kernelT : List Entry := [entT]

/- An entry whose only parent reference does not resolve. -/
def entDangling : Entry :=
  Entry.mk "a" (PList.consName "ghost" PList.nil) [] PyVal.pynone (PyVal.pydict [])
def kernelDangling : List Entry := [entDangling]

/- Two entries forming a parent cycle a -> b -> a. -/
def entCycA : Entry :=
  Entry.mk "a" (PList.consName "b" PList.nil) [] PyVal.pynone (PyVal.pydict [])
def entCycB : Entry :=
  Entry.mk "b" (PList.consName "a" PList.nil) [] PyVal.pynone (PyVal.pydict [])
def kernelCyc : List Entry := [entCycA, entCycB]

/- An entry with empty own_data but a non-empty output_entry_parents list. -/
def oepList : PyVal :=
  PyVal.pylist [PyVal.pylist [PyVal.pystr "^", PyVal.pystr "byname", PyVal.pystr "x"]]
def entOep : Entry := Entry.mk "t" PList.nil [] oepList (PyVal.pydict [])
def kernelOep : List Entry := [entOep]

end Graph

/-! ## Theorems -/

theorem PIC.pyRangeStep_zero (n b : Nat) :
    pyRangeStep 0 n b = (List.range (batchCount n b)).map (fun j => j * b) := by
  simp [pyRangeStep, batchCount]

theorem PIC.batchCount_bounds {b : Nat} (hb : 0 < b) (n : Nat) :
    n ≤ batchCount n b * b ∧ batchCount n b * b < n + b := by
  have hdm : b * ((n + b - 1) / b) + (n + b - 1) % b = n + b - 1 := Nat.div_add_mod _ _
  have hlt : (n + b - 1) % b < b := Nat.mod_lt _ hb
  unfold batchCount
  rw [Nat.mul_comm]
  omega

theorem PIC.chunkJoin {b : Nat} (hb : 0 < b) :
    ∀ (c m s : Nat), m ≤ c * b → c * b < m + b →
      ((List.range c).map
          (fun j => List.range' (s + j * b) (min (s + j * b + b) (s + m) - (s + j * b)))).flatten
        = List.range' s m := by
  intro c
  induction c with
  | zero =>
    intro m s h1 h2
    have hm : m = 0 := by omega
    subst hm
    simp
  | succ c ih =>
    intro m s h1 h2
    have hexp : (c + 1) * b = c * b + b := by ring
    rw [List.range_succ_eq_map]
    simp only [List.map_cons, List.map_map, List.flatten_cons]
    by_cases hmb : b ≤ m
    · have hcongr : (List.range c).map
            ((fun j => List.range' (s + j * b) (min (s + j * b + b) (s + m) - (s + j * b)))
              ∘ Nat.succ)
          = (List.range c).map
            (fun j => List.range' ((s + b) + j * b)
              (min ((s + b) + j * b + b) ((s + b) + (m - b)) - ((s + b) + j * b))) := by
        apply List.map_congr_left
        intro j _
        simp only [Function.comp]
        have e1 : s + Nat.succ j * b = (s + b) + j * b := by rw [Nat.succ_mul]; ring
        have e2 : s + m = (s + b) + (m - b) := by omega
        rw [e1, e2]
      rw [hcongr, ih (m - b) (s + b) (by omega) (by omega)]
      simp only [Nat.zero_mul, Nat.add_zero]
      have hsz : min (s + b) (s + m) - s = b := by omega
      rw [hsz]
      have hap := List.range'_append s b (m - b) 1
      simp only [one_mul] at hap
      rw [hap]
      congr 1
      omega
    · have hc : c = 0 := by
        by_contra hkc
        have h1c : 1 ≤ c := Nat.one_le_iff_ne_zero.mpr hkc
        have hble : b ≤ c * b := Nat.le_mul_of_pos_left b h1c
        omega
      subst hc
      simp only [List.range_zero, List.map_nil, List.flatten_nil, List.append_nil,
        Nat.zero_mul, Nat.add_zero]
      have hsz : min (s + b) (s + m) - s = m := by omega
      rw [hsz]

/-- Claim C1: model loading performs at most 3 attempts, sleeping 20 seconds
before each retry; with 2 failing attempts followed by a success exactly 2
delay intervals elapse and loading succeeds on the 3rd attempt; if all 3
attempts fail with HTTPError the failure is unrecovered: the run faults at
the first use of the unset model variable (NameError at model.eval()) and
no output file is written (runScript never reaches writeOutput). -/
theorem claim_C1 :
    (∀ outcome, (PIC.retryLoad outcome).2.1 ≤ PIC.maxAttempts)
    ∧ (∀ outcome, outcome 0 = false → outcome 1 = false → outcome 2 = true →
        PIC.retryLoad outcome = ([PIC.retryInSeconds, PIC.retryInSeconds], 3, some 2))
    ∧ (∀ outcome, (∀ i, i < PIC.maxAttempts → outcome i = false) →
        PIC.retryLoad outcome = ([PIC.retryInSeconds, PIC.retryInSeconds], 3, Option.none)
        ∧ ∀ path n b ml loadT infT classify,
            PIC.runScript outcome path n b ml loadT infT classify = .error "NameError") := by
  refine ⟨?_, ?_, ?_⟩
  · intro o
    cases h0 : o 0 <;> cases h1 : o 1 <;> cases h2 : o 2 <;>
      simp [PIC.retryLoad, PIC.retryGo, PIC.maxAttempts, h0, h1, h2]
  · intro o h0 h1 h2
    simp [PIC.retryLoad, PIC.retryGo, PIC.maxAttempts, h0, h1, h2]
  · intro o hall
    have h0 := hall 0 (by decide)
    have h1 := hall 1 (by decide)
    have h2 := hall 2 (by decide)
    have hrl : PIC.retryLoad o = ([PIC.retryInSeconds, PIC.retryInSeconds], 3, Option.none) := by
      simp [PIC.retryLoad, PIC.retryGo, PIC.maxAttempts, h0, h1, h2]
    exact ⟨hrl, fun path n b ml loadT infT classify => by simp [PIC.runScript, hrl]⟩

theorem claim_C1_witness :
    ((fun i => decide (i = 2)) 0 = false)
    ∧ ((fun i => decide (i = 2)) 1 = false)
    ∧ ((fun i => decide (i = 2)) 2 = true)
    ∧ PIC.retryLoad (fun i => decide (i = 2))
        = ([PIC.retryInSeconds, PIC.retryInSeconds], 3, some 2)
    ∧ (∀ i, i < PIC.maxAttempts → (fun (_ : Nat) => false) i = false)
    ∧ PIC.runScript (fun _ => false) "out.json" 4 2 1 (fun _ => 1) (fun _ => 1) (fun _ => 0)
        = .error "NameError" :=
  ⟨rfl, rfl, rfl, claim_C1.2.1 _ rfl rfl rfl, fun _ _ => rfl,
   (claim_C1.2.2 (fun _ => false) (fun _ _ => rfl)).2 "out.json" 4 2 1 _ _ _⟩

/-- Claim C2: for positive image count n and batch size b, the batch loop
partitions [0, n) into consecutive chunks of size b with only the last
chunk possibly shorter, the number of batches equals ceil(n/b) (the
script's batch_count), and for n=4, b=2 there are 2 batches of 2 images,
the two per-batch timing lists have exactly 2 entries, and predictions has
exactly 4 (distinct) filename keys. -/
theorem claim_C2 :
    (∀ n b, 0 < n → 0 < b →
      (PIC.pyRangeStep 0 n b).length = PIC.batchCount n b
      ∧ ((PIC.pyRangeStep 0 n b).map (PIC.batchIndices n b)).flatten = List.range n
      ∧ (∀ s ∈ PIC.pyRangeStep 0 n b, s + b ≤ n → (PIC.batchIndices n b s).length = b)
      ∧ (∀ loadT infT classify,
          (PIC.runBatches n b loadT infT classify).listBatchLoading.length = PIC.batchCount n b
          ∧ (PIC.runBatches n b loadT infT classify).listBatchInference.length
              = PIC.batchCount n b
          ∧ (PIC.runBatches n b loadT infT classify).predictions.map Prod.fst
              = (List.range n).map PIC.fileName))
    ∧ (PIC.pyRangeStep 0 4 2 = [0, 2]
       ∧ PIC.batchCount 4 2 = 2
       ∧ PIC.batchIndices 4 2 0 = [0, 1]
       ∧ PIC.batchIndices 4 2 2 = [2, 3]
       ∧ (PIC.runBatches 4 2 (fun _ => (0:ℚ)) (fun _ => (0:ℚ))
            (fun _ => 0)).listBatchLoading.length = 2
       ∧ (PIC.runBatches 4 2 (fun _ => (0:ℚ)) (fun _ => (0:ℚ))
            (fun _ => 0)).listBatchInference.length = 2
       ∧ ((PIC.runBatches 4 2 (fun _ => (0:ℚ)) (fun _ => (0:ℚ))
            (fun _ => 0)).predictions.map Prod.fst).length = 4
       ∧ ((PIC.runBatches 4 2 (fun _ => (0:ℚ)) (fun _ => (0:ℚ))
            (fun _ => 0)).predictions.map Prod.fst).Nodup) := by
  have hflat : ∀ n b, 0 < b →
      ((PIC.pyRangeStep 0 n b).map (PIC.batchIndices n b)).flatten = List.range n := by
    intro n b hb
    rw [PIC.pyRangeStep_zero, List.map_map]
    have hcj := PIC.chunkJoin hb (PIC.batchCount n b) n 0
      (PIC.batchCount_bounds hb n).1 (PIC.batchCount_bounds hb n).2
    simp only [Nat.zero_add] at hcj
    rw [← List.range_eq_range'] at hcj
    have hfun : (PIC.batchIndices n b) ∘ (fun j => j * b)
        = fun j => List.range' (j * b) (min (j * b + b) n - j * b) := by
      funext j; rfl
    rw [hfun]
    exact hcj
  constructor
  · intro n b hn hb
    refine ⟨?_, hflat n b hb, ?_, ?_⟩
    · simp [PIC.pyRangeStep_zero]
    · intro s _ hsb
      simp only [PIC.batchIndices, List.length_range']
      omega
    · intro loadT infT classify
      refine ⟨?_, ?_, ?_⟩
      · simp [PIC.runBatches, PIC.pyRangeStep_zero]
      · simp [PIC.runBatches, PIC.pyRangeStep_zero]
      · show ((PIC.pyRangeStep 0 n b).map
            (fun s => (PIC.batchIndices n b s).map
              (fun i => (PIC.fileName i, classify i)))).flatten.map Prod.fst
            = (List.range n).map PIC.fileName
        rw [List.map_flatten, List.map_map, ← hflat n b hb, List.map_flatten, List.map_map]
        congr 1
        apply List.map_congr_left
        intro s _
        simp [Function.comp, List.map_map]
  · refine ⟨by decide, by decide, by decide, by decide, by decide, by decide, ?_, ?_⟩
    · decide
    · decide

theorem claim_C2_witness :
    0 < 4 ∧ 0 < 2
    ∧ ((PIC.pyRangeStep 0 4 2).length = PIC.batchCount 4 2
      ∧ ((PIC.pyRangeStep 0 4 2).map (PIC.batchIndices 4 2)).flatten = List.range 4
      ∧ (∀ s ∈ PIC.pyRangeStep 0 4 2, s + 2 ≤ 4 → (PIC.batchIndices 4 2 s).length = 2)
      ∧ (∀ loadT infT classify,
          (PIC.runBatches 4 2 loadT infT classify).listBatchLoading.length = PIC.batchCount 4 2
          ∧ (PIC.runBatches 4 2 loadT infT classify).listBatchInference.length
              = PIC.batchCount 4 2
          ∧ (PIC.runBatches 4 2 loadT infT classify).predictions.map Prod.fst
              = (List.range 4).map PIC.fileName)) :=
  ⟨by decide, by decide, claim_C2.1 4 2 (by decide) (by decide)⟩

/-- Claim C3: with an output path given, the recorded per_inference_s equals
sum_inference_s / num_of_images and fps equals num_of_images /
sum_inference_s; the (unguarded) divisions raise ZeroDivisionError exactly
when num_of_images = 0 (positive per-batch inference durations make the
denominators nonzero otherwise), in which case the run aborts before any
output file is written.  The same holds for the torch_script_test script
with its all_inference_s duration. -/
theorem claim_C3 :
    (∀ n b (path : String) (ml : ℚ) (loadT infT : Nat → ℚ) (classify : Nat → Nat),
      0 < b → path ≠ "" → (∀ s, 0 < infT s) →
      ((n = 0 →
          PIC.writeOutput path n ml (PIC.runBatches n b loadT infT classify)
            = .error "ZeroDivisionError")
       ∧ (0 < n → ∃ t,
          PIC.writeOutput path n ml (PIC.runBatches n b loadT infT classify) = .ok (some t)
          ∧ t.perInference = (PIC.runBatches n b loadT infT classify).sumInference / (n : ℚ)
          ∧ t.fps = (n : ℚ) / (PIC.runBatches n b loadT infT classify).sumInference)))
    ∧ (∀ n (path : String) (ml dl allInf : ℚ), path ≠ "" → 0 < allInf →
      ((n = 0 → TST.writeOutput path n ml dl allInf = .error "ZeroDivisionError")
       ∧ (0 < n → ∃ t, TST.writeOutput path n ml dl allInf = .ok (some t)
          ∧ t.perInference = allInf / (n : ℚ) ∧ t.fps = (n : ℚ) / allInf))) := by
  constructor
  · intro n b path ml loadT infT classify hb hpath hpos
    constructor
    · intro hn; subst hn
      simp [PIC.writeOutput, hpath, PIC.mkTimes, PIC.pydiv]
    · intro hn
      have hne : (n : ℚ) ≠ 0 := Nat.cast_ne_zero.mpr (by omega)
      have hsum : 0 < (PIC.runBatches n b loadT infT classify).sumInference := by
        apply List.sum_pos
        · intro x hx
          simp only [List.mem_map] at hx
          obtain ⟨s, _, rfl⟩ := hx
          exact hpos s
        · have hlen : ((PIC.pyRangeStep 0 n b).map infT).length = PIC.batchCount n b := by
            simp [PIC.pyRangeStep_zero]
          intro hnil
          rw [hnil] at hlen
          have : 1 ≤ PIC.batchCount n b := by
            rw [PIC.batchCount, Nat.one_le_div_iff hb]
            omega
          simp at hlen
          omega
      refine ⟨⟨ml, (PIC.runBatches n b loadT infT classify).sumLoading,
        (PIC.runBatches n b loadT infT classify).sumInference,
        (PIC.runBatches n b loadT infT classify).sumInference / (n : ℚ),
        (n : ℚ) / (PIC.runBatches n b loadT infT classify).sumInference,
        (PIC.runBatches n b loadT infT classify).listBatchLoading,
        (PIC.runBatches n b loadT infT classify).listBatchInference⟩, ?_, rfl, rfl⟩
      simp [PIC.writeOutput, hpath, PIC.mkTimes, PIC.pydiv, hne, hsum.ne']
  · intro n path ml dl allInf hpath hpos
    constructor
    · intro hn; subst hn
      simp [TST.writeOutput, hpath, TST.mkTime, PIC.pydiv]
    · intro hn
      have hne : (n : ℚ) ≠ 0 := Nat.cast_ne_zero.mpr (by omega)
      refine ⟨⟨ml, dl, allInf, allInf / (n : ℚ), (n : ℚ) / allInf⟩, ?_, rfl, rfl⟩
      simp [TST.writeOutput, hpath, TST.mkTime, PIC.pydiv, hne, hpos.ne']

theorem claim_C3_witness :
    (0 < 1 ∧ "o.json" ≠ "" ∧ (∀ s : Nat, 0 < (fun _ => (1:ℚ)) s))
    ∧ PIC.writeOutput "o.json" 0 1 (PIC.runBatches 0 1 (fun _ => 1) (fun _ => 1) (fun _ => 0))
        = .error "ZeroDivisionError"
    ∧ TST.writeOutput "o.json" 0 1 1 1 = .error "ZeroDivisionError" :=
  ⟨⟨by decide, by decide, fun _ => by norm_num⟩,
   (claim_C3.1 0 1 "o.json" 1 (fun _ => 1) (fun _ => 1) (fun _ => 0)
      (by decide) (by decide) (fun _ => by norm_num)).1 rfl,
   (claim_C3.2 0 "o.json" 1 1 1 (by decide) (by norm_num)).1 rfl⟩

/-- Claim C6 counterexample: the claim states that a "gpu" hint makes the
script probe cuda availability and select "cuda" or fall back to "cpu",
citing both scripts; in torch_script_test the "gpu" hint is non-empty and
therefore used verbatim, which is neither "cuda" nor "cpu". -/
theorem claim_C6_counterexample :
    TST.selectDevice "gpu" false = "gpu" ∧ "gpu" ≠ "cpu" ∧ "gpu" ≠ "cuda" := by
  refine ⟨rfl, by decide, by decide⟩

/-- Claim C6 (amended): in pytorch_image_classifier the "gpu" hint and the
empty hint both auto-detect (cuda if available, else cpu) and any other
non-empty hint is used verbatim; in torch_script_test only the empty hint
auto-detects and every non-empty hint, including "gpu", is used verbatim. -/
theorem claim_C6 :
    (∀ c, PIC.selectDevice "gpu" c = if c then "cuda" else "cpu")
    ∧ (∀ c, PIC.selectDevice "" c = if c then "cuda" else "cpu")
    ∧ (∀ h c, h ≠ "gpu" → h ≠ "" → PIC.selectDevice h c = h)
    ∧ (∀ c, TST.selectDevice "" c = if c then "cuda" else "cpu")
    ∧ (∀ h c, h ≠ "" → TST.selectDevice h c = h) := by
  refine ⟨fun c => rfl, fun c => by simp [PIC.selectDevice], ?_, fun c => rfl, ?_⟩
  · intro h c hg he
    simp [PIC.selectDevice, hg, he]
  · intro h c he
    simp [TST.selectDevice, he]

theorem claim_C6_witness :
    ("mydev" ≠ "gpu" ∧ "mydev" ≠ "")
    ∧ PIC.selectDevice "gpu" true = "cuda"
    ∧ PIC.selectDevice "mydev" false = "mydev"
    ∧ TST.selectDevice "mydev" false = "mydev" :=
  ⟨⟨by decide, by decide⟩, claim_C6.1 true,
   claim_C6.2.2.1 "mydev" false (by decide) (by decide),
   claim_C6.2.2.2.2 "mydev" false (by decide)⟩

namespace Graph

theorem nodeColors_node (nm c : String) (l : List GEvent) :
    nodeColors (GEvent.node nm c :: l) = c :: nodeColors l := by
  simp [nodeColors]

theorem nodeColors_append (a b : List GEvent) :
    nodeColors (a ++ b) = nodeColors a ++ nodeColors b := by
  simp [nodeColors]

theorem nodeColors_edges (ps : List Entry) (nm : String) :
    nodeColors (ps.map (fun p => GEvent.edge p.name nm)) = [] := by
  induction ps with
  | nil => simp [nodeColors]
  | cons p rest ih => simpa [nodeColors] using ih

theorem nodeNames_node (nm c : String) (l : List GEvent) :
    nodeNames (GEvent.node nm c :: l) = nm :: nodeNames l := by
  simp [nodeNames]

theorem nodeNames_append (a b : List GEvent) :
    nodeNames (a ++ b) = nodeNames a ++ nodeNames b := by
  simp [nodeNames]

theorem nodeNames_edges (ps : List Entry) (nm : String) :
    nodeNames (ps.map (fun p => GEvent.edge p.name nm)) = [] := by
  induction ps with
  | nil => simp [nodeNames]
  | cons p rest ih => simpa [nodeNames] using ih

/- The color discipline of the loop: with the global flag already set, all
   emitted nodes carry the is_output color and the flag stays set; with the
   flag clear, either nothing is emitted (flag stays clear) or the first
   emitted node is red, every later one carries the is_output color, and
   the flag comes out set. -/
theorem dfsLoop_colors (k : List Entry) (isOut : Bool) :
    ∀ stack visited flag,
      ((dfsLoop k isOut stack visited flag).2
          = (flag || !(nodeColors (dfsLoop k isOut stack visited flag).1).isEmpty))
      ∧ (flag = true →
          ∀ c ∈ nodeColors (dfsLoop k isOut stack visited flag).1,
            c = (if isOut then "lightblue" else "lightcoral"))
      ∧ (flag = false →
          (nodeColors (dfsLoop k isOut stack visited flag).1 = []
           ∨ ∃ tl, nodeColors (dfsLoop k isOut stack visited flag).1 = "red" :: tl
               ∧ ∀ c ∈ tl, c = (if isOut then "lightblue" else "lightcoral"))) := by
  intro stack visited flag
  induction stack, visited, flag using dfsLoop.induct k isOut with
  | case1 x flag =>
    constructor
    · simp [dfsLoop, nodeColors]
    constructor
    · intro hf c hc
      simp [dfsLoop, nodeColors] at hc
    · intro hf
      left
      simp [dfsLoop, nodeColors]
  | case2 cur isInit rest visited flag h ih =>
    have heq : dfsLoop k isOut ((cur, isInit) :: rest) visited flag
        = dfsLoop k isOut rest visited flag := by
      rw [dfsLoop]; exact dif_pos h
    rw [heq]
    exact ih
  | case3 cur isInit rest visited flag h resolved ih =>
    have heq : dfsLoop k isOut ((cur, isInit) :: rest) visited flag
        = (GEvent.node cur.name
            (if flag = false then "red" else if isOut = true then "lightblue" else "lightcoral")
            :: ((resolveRefs k cur.parents.toRefs).map (fun p => GEvent.edge p.name cur.name)
              ++ (dfsLoop k isOut
                    ((resolveRefs k cur.parents.toRefs).reverse.map (fun p => (p, false)) ++ rest)
                    (cur.name :: visited) true).1),
           (dfsLoop k isOut
              ((resolveRefs k cur.parents.toRefs).reverse.map (fun p => (p, false)) ++ rest)
              (cur.name :: visited) true).2) := by
      rw [dfsLoop]; exact dif_neg h
    have ih1 := ih.1
    have ih2 := ih.2.1
    simp only [Bool.true_or] at ih1
    rw [heq]
    refine ⟨?_, ?_, ?_⟩
    · simp only [nodeColors_node, nodeColors_append, nodeColors_edges, List.nil_append,
        List.isEmpty_cons, Bool.not_false, Bool.or_true]
      exact ih1
    · intro hf c hc
      simp only [nodeColors_node, nodeColors_append, nodeColors_edges, List.nil_append,
        List.mem_cons] at hc
      rcases hc with rfl | hc
      · simp [hf]
      · exact ih2 rfl c hc
    · intro hf
      right
      refine ⟨nodeColors (dfsLoop k isOut
          ((resolveRefs k cur.parents.toRefs).reverse.map (fun p => (p, false)) ++ rest)
          (cur.name :: visited) true).1, ?_, ?_⟩
      · simp only [nodeColors_node, nodeColors_append, nodeColors_edges, List.nil_append, hf,
          if_true]
      · intro c hc
        exact ih2 rfl c hc

/- The visited-set discipline of the loop: emitted node names are pairwise
   distinct and disjoint from the incoming visited set. -/
theorem dfsLoop_nodup (k : List Entry) (isOut : Bool) :
    ∀ stack visited flag,
      (nodeNames (dfsLoop k isOut stack visited flag).1).Nodup
      ∧ ∀ x ∈ nodeNames (dfsLoop k isOut stack visited flag).1, x ∉ visited := by
  intro stack visited flag
  induction stack, visited, flag using dfsLoop.induct k isOut with
  | case1 x flag => simp [dfsLoop, nodeNames]
  | case2 cur isInit rest visited flag h ih =>
    have heq : dfsLoop k isOut ((cur, isInit) :: rest) visited flag
        = dfsLoop k isOut rest visited flag := by
      rw [dfsLoop]; exact dif_pos h
    rw [heq]
    exact ih
  | case3 cur isInit rest visited flag h resolved ih =>
    have heq : dfsLoop k isOut ((cur, isInit) :: rest) visited flag
        = (GEvent.node cur.name
            (if flag = false then "red" else if isOut = true then "lightblue" else "lightcoral")
            :: ((resolveRefs k cur.parents.toRefs).map (fun p => GEvent.edge p.name cur.name)
              ++ (dfsLoop k isOut
                    ((resolveRefs k cur.parents.toRefs).reverse.map (fun p => (p, false)) ++ rest)
                    (cur.name :: visited) true).1),
           (dfsLoop k isOut
              ((resolveRefs k cur.parents.toRefs).reverse.map (fun p => (p, false)) ++ rest)
              (cur.name :: visited) true).2) := by
      rw [dfsLoop]; exact dif_neg h
    have ih1 := ih.1
    have ih2 := ih.2
    rw [heq]
    simp only [nodeNames_node, nodeNames_append, nodeNames_edges, List.nil_append]
    constructor
    · refine List.nodup_cons.mpr ⟨?_, ih1⟩
      intro hmem
      exact (ih2 cur.name hmem) (List.mem_cons_self _ _)
    · intro x hx
      rcases List.mem_cons.mp hx with rfl | hx
      · exact h
      · intro hv
        exact (ih2 x hx) (List.mem_cons_of_mem _ hv)

end Graph

/-- Claim C7: within a single dfs call each reachable entry name is
processed at most once: the emitted node names are pairwise distinct, and a
node whose name is already in the visited set is skipped when popped again
(the loop step is the identity on it); dfs is a total function of the
kernel (its termination proof is part of the definition), and on the
concrete cyclic kernel a <-> b the traversal terminates with each name
emitted exactly once. -/
theorem claim_C7 :
    (∀ k root isOut flag, (Graph.nodeNames (Graph.dfs k root isOut flag).1).Nodup)
    ∧ (∀ k isOut (e : Graph.Entry) (b : Bool) rest visited flag, e.name ∈ visited →
        Graph.dfsLoop k isOut ((e, b) :: rest) visited flag
          = Graph.dfsLoop k isOut rest visited flag)
    ∧ Graph.dfs Graph.kernelCyc (.pystr "a") false false
        = ([Graph.GEvent.node "a" "red", Graph.GEvent.edge "b" "a",
            Graph.GEvent.node "b" "lightcoral", Graph.GEvent.edge "a" "b"], true) := by
  refine ⟨?_, ?_, ?_⟩
  · intro k root isOut flag
    unfold Graph.dfs
    cases Graph.rootResolve k root with
    | none => simp [Graph.nodeNames]
    | some e => exact (Graph.dfsLoop_nodup k isOut [(e, true)] [] flag).1
  · intro k isOut e b rest visited flag h
    rw [Graph.dfsLoop]; exact dif_pos h
  · simp [Graph.dfs, Graph.rootResolve, Graph.byname, Graph.kernelCyc, Graph.entCycA,
      Graph.entCycB, Graph.Entry.name, Graph.dfsLoop, Graph.resolveRefs, Graph.Entry.parents,
      Graph.PList.toRefs, Graph.resolveParent, List.find?, List.filterMap]

theorem claim_C7_witness :
    (Graph.entCycA.name ∈ ["a"])
    ∧ Graph.dfsLoop [] false [(Graph.entCycA, true)] ["a"] false
        = Graph.dfsLoop [] false [] ["a"] false :=
  ⟨by simp [Graph.entCycA, Graph.Entry.name],
   claim_C7.2.1 [] false Graph.entCycA true [] ["a"] false
     (by simp [Graph.entCycA, Graph.Entry.name])⟩

/-- Claim C8: a parent reference whose byname lookup fails is skipped
silently: it contributes neither a stack push nor an edge (resolveRefs,
which dfsLoop uses for both, is unchanged when the unresolvable reference
is removed), the remaining parents are still processed, and no error is
raised -- concretely, dfs on a kernel whose only entry has a dangling
parent reference emits just the root node, no edge, and returns normally. -/
theorem claim_C8 :
    (∀ k s, Graph.byname k s = Option.none →
      ∀ pre post, Graph.resolveRefs k (pre ++ Sum.inl s :: post)
        = Graph.resolveRefs k (pre ++ post))
    ∧ Graph.dfs Graph.kernelDangling (.pystr "a") false false
        = ([Graph.GEvent.node "a" "red"], true) := by
  constructor
  · intro k s h pre post
    simp [Graph.resolveRefs, List.filterMap_append, List.filterMap_cons, Graph.resolveParent, h]
  · simp [Graph.dfs, Graph.rootResolve, Graph.byname, Graph.kernelDangling, Graph.entDangling,
      Graph.Entry.name, Graph.dfsLoop, Graph.resolveRefs, Graph.Entry.parents,
      Graph.PList.toRefs, Graph.resolveParent, List.find?, List.filterMap]

theorem claim_C8_witness :
    Graph.byname [] "x" = Option.none
    ∧ Graph.resolveRefs [] ([] ++ Sum.inl "x" :: []) = Graph.resolveRefs [] ([] ++ []) :=
  ⟨rfl, claim_C8.1 [] "x" rfl [] []⟩

namespace Graph

theorem dfs_resolvable_red (k : List Entry) (t : String) (e : Entry) (isOut : Bool)
    (he : byname k t = some e) :
    (∃ tl, nodeColors (dfs k (.pystr t) isOut false).1 = "red" :: tl
        ∧ ∀ c ∈ tl, c = (if isOut then "lightblue" else "lightcoral"))
    ∧ (dfs k (.pystr t) isOut false).2 = true := by
  have hroot : rootResolve k (.pystr t) = some e := by simp [rootResolve, he]
  have hd : dfs k (.pystr t) isOut false = dfsLoop k isOut [(e, true)] [] false := by
    simp [dfs, hroot]
  have heq : dfsLoop k isOut [(e, true)] [] false
      = (GEvent.node e.name "red"
          :: ((resolveRefs k e.parents.toRefs).map (fun p => GEvent.edge p.name e.name)
            ++ (dfsLoop k isOut
                  ((resolveRefs k e.parents.toRefs).reverse.map (fun p => (p, false)) ++ [])
                  (e.name :: []) true).1),
         (dfsLoop k isOut
            ((resolveRefs k e.parents.toRefs).reverse.map (fun p => (p, false)) ++ [])
            (e.name :: []) true).2) := by
    rw [dfsLoop]
    rw [dif_neg (List.not_mem_nil _)]
    rfl
  have htail := dfsLoop_colors k isOut
      ((resolveRefs k e.parents.toRefs).reverse.map (fun p => (p, false)) ++ [])
      (e.name :: []) true
  rw [hd, heq]
  refine ⟨⟨nodeColors (dfsLoop k isOut
      ((resolveRefs k e.parents.toRefs).reverse.map (fun p => (p, false)) ++ [])
      (e.name :: []) true).1, ?_, ?_⟩, ?_⟩
  · simp [nodeColors_node, nodeColors_append, nodeColors_edges]
  · exact fun c hc => htail.2.1 rfl c hc
  · simpa using htail.1

theorem dfs_true_blue (k : List Entry) (root : PyVal) :
    ((dfs k root true true).2 = true)
    ∧ (∀ c ∈ nodeColors (dfs k root true true).1, c = "lightblue") := by
  unfold dfs
  cases hr : rootResolve k root with
  | none => simp [nodeColors]
  | some e =>
    constructor
    · have := (dfsLoop_colors k true [(e, true)] [] true).1
      simpa using this
    · intro c hc
      have := (dfsLoop_colors k true [(e, true)] [] true).2.1 rfl c hc
      simpa using this

theorem drawCluster1_blue (k : List Entry) :
    ∀ roots, (∀ p ∈ (drawCluster1 k roots true).1, ∀ c ∈ nodeColors p.2, c = "lightblue")
      ∧ (drawCluster1 k roots true).2 = true := by
  intro roots
  induction roots with
  | nil => simp [drawCluster1]
  | cons r rest ih =>
    have hstep : drawCluster1 k (r :: rest) true
        = ((r, (dfs k r true true).1) :: (drawCluster1 k rest true).1,
           (drawCluster1 k rest true).2) := by
      simp [drawCluster1, (dfs_true_blue k r).1]
    rw [hstep]
    constructor
    · intro p hp c hc
      rcases List.mem_cons.mp hp with rfl | hp
      · exact (dfs_true_blue k r).2 c hc
      · exact ih.1 p hp c hc
    · exact ih.2

theorem drawElse_parts (k : List Entry) (bes : List PyVal) (oepT outFlag : Bool)
    (c0 : List GEvent × Bool) (r : DrawRes)
    (h : drawElse k bes oepT outFlag c0 = .ok (some r)) :
    r.cluster0 = c0.1 ∧ r.outputNode = outFlag
    ∧ ∃ roots, (r.cluster1, r.flagOut) = drawCluster1 k roots c0.2 := by
  unfold drawElse at h
  split at h
  · simp only [Except.ok.injEq, Option.some.injEq] at h
    subst h
    exact ⟨rfl, rfl, bes, rfl⟩
  · simp only [Except.ok.injEq, Option.some.injEq] at h
    subst h
    exact ⟨rfl, rfl, [], rfl⟩

theorem draw_ok_parts (k : List Entry) (t : String) (e : Entry) (r : DrawRes)
    (he : byname k t = some e) (h : draw k t = .ok (some r)) :
    r.cluster0 = (dfs k (.pystr t) false false).1
    ∧ r.outputNode = (scanData e.ownData (pyTruthy e.oep)).1
    ∧ ∃ roots, (r.cluster1, r.flagOut)
        = drawCluster1 k roots (dfs k (.pystr t) false false).2 := by
  simp only [draw, he] at h
  rcases hbe : (if pyTruthy e.oep = true then extract_byname_entries e.oep else Except.ok [])
    with err | bes
  · simp only [hbe] at h
    exact Except.noConfusion h
  · simp only [hbe] at h
    rcases hs2 : (scanData e.ownData (pyTruthy e.oep)).2 with _ | opd
    · simp only [hs2] at h
      exact drawElse_parts k bes (pyTruthy e.oep) (scanData e.ownData (pyTruthy e.oep)).1
        (dfs k (.pystr t) false false) r h
    · simp only [hs2] at h
      by_cases ht : pyTruthy opd = true
      · rw [if_pos ht] at h
        rcases hfp : find_parent opd with err | info
        · simp only [hfp] at h
          exact Except.noConfusion h
        · simp only [hfp] at h
          rcases hfb : find_byname e.fileData with err | ops
          · simp only [hfb] at h
            exact Except.noConfusion h
          · simp only [hfb, Except.ok.injEq, Option.some.injEq] at h
            subst h
            exact ⟨rfl, rfl, ops, rfl⟩
      · rw [if_neg ht] at h
        exact drawElse_parts k bes (pyTruthy e.oep) (scanData e.ownData (pyTruthy e.oep)).1
          (dfs k (.pystr t) false false) r h

end Graph

/-- Claim C4: within a single draw invocation the first node emitted across
all dfs sub-traversals is colored red and it is the only red node: every
other node of cluster_0 (is_output False) is lightcoral and every node of
every cluster_1 sub-traversal (is_output True) is lightblue; the shared
initial_root_visited flag, reset only at draw entry, stays set once the
first node is emitted, so no later sub-traversal produces another red
node. -/
theorem claim_C4 (k : List Graph.Entry) (t : String) (r : Graph.DrawRes)
    (h : Graph.draw k t = .ok (some r)) :
    (∃ tl, Graph.nodeColors r.cluster0 = "red" :: tl ∧ ∀ c ∈ tl, c = "lightcoral")
    ∧ (∀ p ∈ r.cluster1, ∀ c ∈ Graph.nodeColors p.2, c = "lightblue") := by
  cases he : Graph.byname k t with
  | none =>
    unfold Graph.draw at h
    rw [he] at h
    simp at h
  | some e =>
    obtain ⟨hc0, houtput, roots, hc1⟩ := Graph.draw_ok_parts k t e r he h
    have hred := Graph.dfs_resolvable_red k t e false he
    constructor
    · rw [hc0]
      obtain ⟨⟨tl, htl, hall⟩, hflag⟩ := hred
      refine ⟨tl, htl, ?_⟩
      intro c hc
      simpa using hall c hc
    · intro p hp c hc
      rw [hred.2] at hc1
      have hcl : r.cluster1 = (Graph.drawCluster1 k roots true).1 := congrArg Prod.fst hc1
      rw [hcl] at hp
      exact (Graph.drawCluster1_blue k roots).1 p hp c hc

theorem claim_C4_witness :
    Graph.draw Graph.kernelT "t"
        = .ok (some ⟨[Graph.GEvent.node "t" "red"], false, [], true⟩)
    ∧ ((∃ tl, Graph.nodeColors
          (⟨[Graph.GEvent.node "t" "red"], false, [], true⟩ : Graph.DrawRes).cluster0
            = "red" :: tl ∧ ∀ c ∈ tl, c = "lightcoral")
       ∧ (∀ p ∈ (⟨[Graph.GEvent.node "t" "red"], false, [], true⟩ : Graph.DrawRes).cluster1,
            ∀ c ∈ Graph.nodeColors p.2, c = "lightblue")) := by
  have h : Graph.draw Graph.kernelT "t"
      = .ok (some ⟨[Graph.GEvent.node "t" "red"], false, [], true⟩) := by
    simp [Graph.draw, Graph.byname, Graph.kernelT, Graph.entT, Graph.Entry.name,
      Graph.Entry.oep, Graph.Entry.ownData, Graph.Entry.parents, pyTruthy, Graph.scanData,
      Graph.drawElse, Graph.dfs, Graph.rootResolve, Graph.dfsLoop, Graph.resolveRefs,
      Graph.PList.toRefs, Graph.resolveParent, List.find?, List.filterMap]
  exact ⟨h, claim_C4 _ _ _ h⟩

namespace Graph

theorem scanStep_fst (oepT : Bool) (acc : Bool × Option PyVal) (kv : String × PyVal) :
    (scanStep oepT acc kv).1
      = (strContains (pyStr kv.2) "_parent_entries" || strContains (pyStr kv.2) "tags"
          || oepT || acc.1) := by
  unfold scanStep
  split_ifs with h1 h2 h3
  · simp [h1]
  · simp [h1, h2]
  · simp [h1, h2, h3]
  · simp [h1, h2, h3]

theorem scanData_fold_fst (oepT : Bool) :
    ∀ (items : List (String × PyVal)) (acc : Bool × Option PyVal),
      (items.foldl (scanStep oepT) acc).1
        = (acc.1 || items.any (fun kv =>
            strContains (pyStr kv.2) "_parent_entries" || strContains (pyStr kv.2) "tags"
              || oepT)) := by
  intro items
  induction items with
  | nil => simp
  | cons kv rest ih =>
    intro acc
    simp only [List.foldl_cons, List.any_cons]
    rw [ih, scanStep_fst]
    cases acc.1 <;> cases oepT <;>
      cases strContains (pyStr kv.2) "_parent_entries" <;>
      cases strContains (pyStr kv.2) "tags" <;> simp

theorem scanData_fst (items : List (String × PyVal)) (oepT : Bool) :
    ((scanData items oepT).1 = true)
      ↔ ((∃ kv ∈ items, strContains (pyStr kv.2) "_parent_entries" = true)
         ∨ (∃ kv ∈ items, strContains (pyStr kv.2) "tags" = true)
         ∨ (oepT = true ∧ items ≠ [])) := by
  unfold scanData
  rw [scanData_fold_fst]
  simp only [Bool.false_or, List.any_eq_true]
  constructor
  · rintro ⟨kv, hm, hc⟩
    simp only [Bool.or_eq_true] at hc
    rcases hc with (h | h) | h
    · exact Or.inl ⟨kv, hm, h⟩
    · exact Or.inr (Or.inl ⟨kv, hm, h⟩)
    · exact Or.inr (Or.inr ⟨h, List.ne_nil_of_mem hm⟩)
  · rintro (⟨kv, hm, h⟩ | ⟨kv, hm, h⟩ | ⟨ho, hne⟩)
    · exact ⟨kv, hm, by simp [h]⟩
    · exact ⟨kv, hm, by simp [h]⟩
    · obtain ⟨kv, hm⟩ := List.exists_mem_of_ne_nil items hne
      exact ⟨kv, hm, by simp [ho]⟩

end Graph

/-- Claim C5 counterexample: the claim says a non-empty output_entry_parents
list alone makes draw add the synthetic "output" node; for an entry whose
own_data is empty the scan loop at lines 35-42 never runs, so with a
non-empty output_entry_parents list and empty own_data no "output" node is
added (outputNode = false). -/
theorem claim_C5_counterexample :
    pyTruthy Graph.entOep.oep = true
    ∧ Graph.entOep.ownData = []
    ∧ Graph.draw Graph.kernelOep "t"
        = .ok (some ⟨[Graph.GEvent.node "t" "red"], false, [(.pystr "x", [])], true⟩)
    ∧ (⟨[Graph.GEvent.node "t" "red"], false, [(.pystr "x", [])], true⟩
        : Graph.DrawRes).outputNode = false := by
  refine ⟨rfl, rfl, ?_, rfl⟩
  simp [Graph.draw, Graph.byname, Graph.kernelOep, Graph.entOep, Graph.oepList,
    Graph.Entry.name, Graph.Entry.oep, Graph.Entry.ownData, Graph.Entry.fileData,
    pyTruthy, Graph.scanData, Graph.extract_byname_entries, Graph.pyToIter,
    Graph.extractOne, isPyStrEq, List.findIdx, List.findIdx.go, Graph.drawElse,
    Graph.drawCluster1, Graph.dfs, Graph.rootResolve, Graph.dfsLoop, Graph.resolveRefs,
    Graph.Entry.parents, Graph.PList.toRefs, Graph.resolveParent, List.find?,
    List.filterMap]

/-- Claim C5 (amended): for a resolvable target, draw adds the synthetic
"output" node and the target->output edge exactly when the target's own
metadata contains a value whose string form contains "_parent_entries", or
one whose string form contains "tags", or the output_entry_parents signal
is truthy AND the own metadata is non-empty -- the third signal alone does
not fire on an entry with empty own_data, because it is only tested inside
the loop over the metadata items. -/
theorem claim_C5 (k : List Graph.Entry) (t : String) (e : Graph.Entry) (r : Graph.DrawRes)
    (he : Graph.byname k t = some e) (h : Graph.draw k t = .ok (some r)) :
    r.outputNode = true
      ↔ ((∃ kv ∈ e.ownData, strContains (pyStr kv.2) "_parent_entries" = true)
         ∨ (∃ kv ∈ e.ownData, strContains (pyStr kv.2) "tags" = true)
         ∨ (pyTruthy e.oep = true ∧ e.ownData ≠ [])) := by
  have hparts := Graph.draw_ok_parts k t e r he h
  rw [hparts.2.1]
  exact Graph.scanData_fst e.ownData (pyTruthy e.oep)

theorem claim_C5_witness :
    Graph.byname Graph.kernelOep "t" = some Graph.entOep
    ∧ Graph.draw Graph.kernelOep "t"
        = .ok (some ⟨[Graph.GEvent.node "t" "red"], false, [(.pystr "x", [])], true⟩)
    ∧ ((⟨[Graph.GEvent.node "t" "red"], false, [(.pystr "x", [])], true⟩
          : Graph.DrawRes).outputNode = true
        ↔ ((∃ kv ∈ Graph.entOep.ownData, strContains (pyStr kv.2) "_parent_entries" = true)
           ∨ (∃ kv ∈ Graph.entOep.ownData, strContains (pyStr kv.2) "tags" = true)
           ∨ (pyTruthy Graph.entOep.oep = true ∧ Graph.entOep.ownData ≠ []))) := by
  have h : Graph.draw Graph.kernelOep "t"
      = .ok (some ⟨[Graph.GEvent.node "t" "red"], false, [(.pystr "x", [])], true⟩) :=
    claim_C5_counterexample.2.2.1
  exact ⟨rfl, h, claim_C5 Graph.kernelOep "t" Graph.entOep _ rfl h⟩

namespace Graph

theorem dictFreeList_mem {xs : List PyVal} (h : dictFreeList xs = true) :
    ∀ x ∈ xs, dictFree x = true := by
  induction xs with
  | nil => intro x hx; cases hx
  | cons y rest ih =>
    rw [dictFreeList] at h
    rcases Bool.and_eq_true_iff.mp h with ⟨h1, h2⟩
    intro x hx
    rcases List.mem_cons.mp hx with rfl | hx
    · exact h1
    · exact ih h2 x hx

theorem findKey_dictFree :
    ∀ (N : Nat) (obj : PyVal), sizeOf obj ≤ N → dictFree obj = true →
      ∀ key, ∃ l, findKey obj key = .ok (.pylist l) := by
  intro N
  induction N with
  | zero =>
    intro obj hsz
    exfalso
    cases obj <;> simp at hsz
  | succ N ih =>
    intro obj hsz hdf key
    cases obj with
    | pynone => exact ⟨[], rfl⟩
    | pybool b => exact ⟨[], rfl⟩
    | pyint n => exact ⟨[], rfl⟩
    | pystr s => exact ⟨[], rfl⟩
    | pydict kvs => rw [dictFree] at hdf; cases hdf
    | pylist xs =>
      have hmemsz : ∀ x ∈ xs, sizeOf x ≤ N := by
        intro x hx
        have h1 := List.sizeOf_lt_of_mem hx
        have h2 : sizeOf (PyVal.pylist xs) = 1 + sizeOf xs := by simp
        omega
      have hmemdf : ∀ x ∈ xs, dictFree x = true :=
        dictFreeList_mem (by rw [dictFree] at hdf; exact hdf)
      have hlist : ∀ (ys : List PyVal), (∀ y ∈ ys, sizeOf y ≤ N) →
          (∀ y ∈ ys, dictFree y = true) →
          ∀ ms, ∃ l, findKeyList ys key ms = .ok l := by
        intro ys
        induction ys with
        | nil => exact fun _ _ ms => ⟨ms, rfl⟩
        | cons y rest ihr =>
          intro hsz' hdf' ms
          obtain ⟨ly, hy⟩ := ih y (hsz' y (by simp)) (hdf' y (by simp)) key
          obtain ⟨l, hl⟩ := ihr (fun z hz => hsz' z (by simp [hz]))
            (fun z hz => hdf' z (by simp [hz])) (ms ++ ly)
          exact ⟨l, by rw [findKeyList, hy]; simpa [pyExtend] using hl⟩
      obtain ⟨l, hl⟩ := hlist xs hmemsz hmemdf
        ((if key = "_parent_entries" && parentPatMatch (pyStr (.pylist xs))
            then [.pylist xs] else [])
          ++ (if key = "byname" && bynamePatMatch (pyStr (.pylist xs))
            then [.pylist xs] else []))
      exact ⟨l, by rw [findKey, hl]⟩

end Graph

/-- Claim C9 counterexample: the claim says the pattern-extraction helpers
return an empty result rather than raising on malformed metadata; in fact
find_parent (= find_key at key "_parent_entries") raises TypeError when a
nested match's value is not iterable (matches.extend of an int),
find_byname raises IndexError when a matched byname list has fewer than 3
elements, and find_byname raises TypeError already at process_json's
`key in obj` membership test when the parsed file is not a container
(here the int 5, a dictionary-free value). -/
theorem claim_C9_counterexample :
    Graph.find_parent (.pydict [("a", .pydict [("_parent_entries", .pyint 5)])])
      = .error "TypeError"
    ∧ Graph.find_byname (.pydict [("output_entry",
        .pylist [.pystr "_parent_entries", .pylist [.pystr "^", .pystr "byname"]])])
      = .error "IndexError"
    ∧ Graph.find_byname (.pyint 5) = .error "TypeError" :=
  ⟨rfl, rfl, rfl⟩

/-- Claim C9 (amended): find_key, and hence find_parent, return .ok of a
(possibly empty) list rather than raising on any metadata value containing
no dictionary; that exemption does not extend to find_byname, which can
raise even on the dictionary-free value 5 (TypeError at process_json's
membership test); in general the helpers can raise instead of returning an
empty result: find_key/find_parent a TypeError (extending matches by a
non-iterable matched value), find_byname a TypeError or an IndexError. -/
theorem claim_C9 (obj : PyVal) (key : String) (h : Graph.dictFree obj = true) :
    (∃ l, Graph.findKey obj key = .ok (.pylist l))
    ∧ (∃ l, Graph.find_parent obj = .ok (.pylist l))
    ∧ (Graph.dictFree (.pyint 5) = true ∧ Graph.find_byname (.pyint 5) = .error "TypeError") :=
  ⟨Graph.findKey_dictFree (sizeOf obj) obj (Nat.le_refl _) h key,
   Graph.findKey_dictFree (sizeOf obj) obj (Nat.le_refl _) h "_parent_entries",
   rfl, rfl⟩

theorem claim_C9_witness :
    Graph.dictFree (.pylist [.pyint 1, .pystr "x"]) = true
    ∧ ((∃ l, Graph.findKey (.pylist [.pyint 1, .pystr "x"]) "k" = .ok (.pylist l))
       ∧ (∃ l, Graph.find_parent (.pylist [.pyint 1, .pystr "x"]) = .ok (.pylist l))
       ∧ (Graph.dictFree (.pyint 5) = true
          ∧ Graph.find_byname (.pyint 5) = .error "TypeError")) :=
  ⟨rfl, claim_C9 (.pylist [.pyint 1, .pystr "x"]) "k" rfl⟩

/-- Claim C10 counterexample: the claim says the recursive result from the
first value is a list, never None, and is returned unconditionally; here
the first value's recursive result is the non-iterable matched value 5, so
find_key raises TypeError instead of returning, and in particular nothing
is "returned unconditionally". -/
theorem claim_C10_counterexample :
    Graph.findKey (.pydict [("a", .pydict [("k", .pyint 5)]), ("b", .pyint 0)]) "k"
      = .error "TypeError" :=
  rfl

/-- Claim C10 (amended): for every dict whose first key/value pair does not
have the searched key as its key, find_key never examines the second and
later pairs -- its outcome (the first value's recursive result when that
result is iterable, the propagated exception or a TypeError otherwise) is
identical to running it on the one-pair dict, so matches located under
later keys are never found. -/
theorem claim_C10 (key k1 : String) (v : PyVal) (rest : List (String × PyVal))
    (hne : k1 ≠ key) :
    Graph.findKey (.pydict ((k1, v) :: rest)) key
      = Graph.findKey (.pydict [(k1, v)]) key := by
  cases hr : Graph.findKey v key with
  | error e =>
    simp [Graph.findKey, Graph.findKeyDict, hne, hr]
  | ok r =>
    cases r with
    | pynone => simp [Graph.findKey, Graph.findKeyDict, hne, hr, Graph.pyExtend]
    | pybool b => simp [Graph.findKey, Graph.findKeyDict, hne, hr, Graph.pyExtend]
    | pyint n => simp [Graph.findKey, Graph.findKeyDict, hne, hr, Graph.pyExtend]
    | pystr s => simp [Graph.findKey, Graph.findKeyDict, hne, hr, Graph.pyExtend]
    | pylist xs => simp [Graph.findKey, Graph.findKeyDict, hne, hr, Graph.pyExtend]
    | pydict kvs => simp [Graph.findKey, Graph.findKeyDict, hne, hr, Graph.pyExtend]

theorem claim_C10_witness :
    ("a" ≠ "k")
    ∧ Graph.findKey (.pydict [("a", .pyint 1), ("k", .pyint 9)]) "k"
        = Graph.findKey (.pydict [("a", .pyint 1)]) "k" :=
  ⟨by decide, claim_C10 "k" "a" (.pyint 1) [("k", .pyint 9)] (by decide)⟩
